import Mathlib

/-!
Shallow embedding of the "Krishana" real-estate chat/voice client
(src/App.tsx, src/services/db.ts, src/services/gemini.ts) and proofs about
its voice pipeline, chat streaming, property filtering and database layer.

Conventions of the embedding:
* JavaScript strings are Lean `String`s; `s.includes(q)` becomes `jsIncludes`
  and `s.toLowerCase()` becomes `jsToLower` (ASCII lowering, `Char.toLower`).
* Times (the Web Audio clock `currentTime`, buffer durations, the
  `nextStartTimeRef` cursor) are rationals `ℚ` standing for real seconds.
* `AudioBufferSourceNode`s are identified by the natural number id under
  which they were created; decoded audio buffers are abstracted by their
  duration, which is all `onmessage` uses of them.
* Backend (Supabase) calls return their data or an error value; a fallible
  call is given its outcome as an explicit `Option DbError` argument, so a
  theorem quantifying over it covers both the success and the failure path.
-/

namespace RealEstate

/-- `Role` from src/types.ts: the two chat roles. -/
inductive Role where
  | user
  | model
deriving Repr, DecidableEq

/-- `Message` from src/types.ts. -/
structure Message where
  id : String
  role : Role
  text : String
  timestamp : ℕ
deriving Repr, DecidableEq

/-- `ChatSession` from src/types.ts. -/
structure ChatSession where
  id : String
  name : String
  messages : List Message
  updatedAt : ℕ
deriving Repr, DecidableEq

/-- `Property` from src/types.ts (`image_url` is optional there). -/
structure Property where
  id : String
  name : String
  country : String
  city : String
  price : ℚ
  currency : String
  description : String
  image_url : Option String
  type : String
deriving Repr, DecidableEq

/-- JavaScript `s.toLowerCase()` on the ASCII range: lower every character. -/
def jsToLower (s : String) : String :=
  ⟨s.toList.map Char.toLower⟩

/-- JavaScript `s.includes(sub)`: `sub` occurs contiguously in `s`, i.e. it
is a prefix of some suffix of `s`. -/
def jsIncludes (s sub : String) : Bool :=
  s.toList.tails.any (fun t => sub.toList.isPrefixOf t)

/-! ## The real-time voice pipeline (src/App.tsx, `startVoiceSession` /
`stopVoiceSession`)

The component keeps the pipeline in refs: `audioContextInRef`,
`audioContextOutRef`, `nextStartTimeRef`, `activeSourcesRef`,
`sessionPromiseRef`, `mediaStreamRef`, plus the two transcription buffers
and the `isVoiceActive` flag. Audio contexts, media streams and session
promises are object references; we identify each by a `ℕ` tag, `none`
standing for the ref being `null`. The `scheduled` field is a ghost log of
every `source.start(t)` call issued so far, recording the start time and
the duration of the buffer played; it lets theorems speak about the order
in which playback was scheduled. -/

structure VoiceState where
  isVoiceActive : Bool
  mediaStream : Option ℕ
  audioContextIn : Option ℕ
  audioContextOut : Option ℕ
  sessionPromise : Option ℕ
  /-- ids of the `AudioBufferSourceNode`s in `activeSourcesRef.current`,
  in insertion order. -/
  activeSources : List ℕ
  /-- `nextStartTimeRef.current` (seconds). -/
  nextStartTime : ℚ
  /-- ghost log of `(start, duration)` for each `source.start` call. -/
  scheduled : List (ℚ × ℚ)
  /-- fresh-id counter for created source nodes. -/
  nextSourceId : ℕ
  /-- `currentInputTranscription.current`. -/
  currentInputTranscription : String
  /-- `currentOutputTranscription.current`. -/
  currentOutputTranscription : String
deriving Repr, DecidableEq

/-- A `LiveServerMessage` as `onmessage` inspects it: the optional
transcription texts, the optional audio chunk of
`serverContent.modelTurn.parts[0].inlineData.data` — abstracted by the
duration (in seconds) of the buffer `decodeAudioData` yields for it — and
the `interrupted` / `turnComplete` flags. `audioData = none` covers both a
missing and an empty (falsy) data string. -/
structure ServerMessage where
  inputTranscription : Option String
  outputTranscription : Option String
  audioData : Option ℚ
  interrupted : Bool
  turnComplete : Bool
deriving Repr, DecidableEq

/-- The transcription branch of `onmessage` (src/App.tsx lines 230-234):
`if (inputTranscription) ... else if (outputTranscription) ...`. -/
def handleTranscription (s : VoiceState) (m : ServerMessage) : VoiceState :=
  match m.inputTranscription with
  | some t => { s with currentInputTranscription := s.currentInputTranscription ++ t }
  | none =>
    match m.outputTranscription with
    | some t => { s with currentOutputTranscription := s.currentOutputTranscription ++ t }
    | none => s

/-- The audio-playback branch of `onmessage` (src/App.tsx lines 236-249),
taken when the message carries audio data and `audioContextOutRef.current`
is non-null. `t` is `currentCtxOut.currentTime` at that moment. The code
sets `nextStartTimeRef.current = Math.max(nextStartTimeRef.current,
currentTime)`, starts a fresh source at that time, advances
`nextStartTimeRef.current` by the buffer's duration and adds the source to
`activeSourcesRef.current`. -/
def handleAudio (s : VoiceState) (m : ServerMessage) (t : ℚ) : VoiceState :=
  match m.audioData, s.audioContextOut with
  | some d, some _ =>
    let start := max s.nextStartTime t
    { s with
      nextStartTime := start + d
      activeSources := s.activeSources ++ [s.nextSourceId]
      scheduled := s.scheduled ++ [(start, d)]
      nextSourceId := s.nextSourceId + 1 }
  | _, _ => s

/-- The interruption branch of `onmessage` (src/App.tsx lines 251-255):
when `serverContent.interrupted` is set, `stop()` every source in
`activeSourcesRef.current`, clear the set and reset
`nextStartTimeRef.current` to 0. Returns the new state together with the
ids of the sources that were stopped. -/
def handleInterrupted (s : VoiceState) (m : ServerMessage) : VoiceState × List ℕ :=
  if m.interrupted then
    ({ s with activeSources := [], nextStartTime := 0 }, s.activeSources)
  else
    (s, [])

/-- The turn-complete branch of `onmessage` (src/App.tsx lines 257-274): the
accumulated transcriptions are persisted via `db.saveMessage` (an external
effect, not part of the pipeline state) and both buffers are cleared. -/
def handleTurnComplete (s : VoiceState) (m : ServerMessage) : VoiceState :=
  if m.turnComplete then
    { s with currentInputTranscription := "", currentOutputTranscription := "" }
  else
    s

/-- One run of the `onmessage` callback of `ai.live.connect`
(src/App.tsx lines 229-275) on a server message, at output-context time
`t`. Returns the new pipeline state and the ids of the sources stopped by
the interruption branch. -/
def onmessage (s : VoiceState) (m : ServerMessage) (t : ℚ) : VoiceState × List ℕ :=
  let s1 := handleTranscription s m
  let s2 := handleAudio s1 m t
  let p := handleInterrupted s2 m
  (handleTurnComplete p.1 m, p.2)

/-- `stopVoiceSession` (src/App.tsx lines 302-323): clear `isVoiceActive`,
stop the media tracks and null the stream ref, close and null both audio
contexts, stop and clear the active sources, and null the session-promise
ref (closing the session asynchronously). `nextStartTimeRef` is not
touched. -/
def stopVoiceSession (s : VoiceState) : VoiceState :=
  { s with
    isVoiceActive := false
    mediaStream := none
    audioContextIn := none
    audioContextOut := none
    activeSources := []
    sessionPromise := none }

/-- The per-frame microphone callback `scriptProcessor.onaudioprocess`
(src/App.tsx lines 216-224). It closes over the `sessionPromise` of the
`startVoiceSession` call that installed it (tag `captured`); when the
promise resolves it sends the PCM frame only if
`sessionPromiseRef.current === sessionPromise` still holds. The result is
the list of (session, frame) sends the callback performs. -/
def onaudioprocess (s : VoiceState) (captured : ℕ) (frame : List ℤ) :
    List (ℕ × List ℤ) :=
  if s.sessionPromise = some captured then [(captured, frame)] else []

/-- The scheduling invariant of the playback queue: consecutive entries of
the `source.start` log do not overlap (each chunk starts no earlier than
the previous chunk's scheduled end), and the `nextStartTime` cursor is at
or after the scheduled end of the last logged chunk. -/
def playbackInvariant (s : VoiceState) : Prop :=
  List.Chain' (fun a b => a.1 + a.2 ≤ b.1) s.scheduled ∧
  ∀ e ∈ s.scheduled.getLast?, e.1 + e.2 ≤ s.nextStartTime

instance (s : VoiceState) : Decidable (playbackInvariant s) := by
  unfold playbackInvariant
  exact instDecidableAnd

/-! ## Text streaming (src/services/gemini.ts, `sendMessageStream`, and
src/App.tsx, `handleSendText`) -/

/-- The role string `m.role === Role.USER ? 'user' : 'model'` computed for
each history message in `sendMessageStream`. -/
def roleString (r : Role) : String :=
  if r = Role.user then "user" else "model"

/-- One entry of the `geminiHistory` array `sendMessageStream` builds:
`{ role, parts: [{ text }] }` with a single text part. -/
structure GeminiContent where
  role : String
  text : String
deriving Repr, DecidableEq

/-- The history-compaction loop of `sendMessageStream`
(src/services/gemini.ts): walk the history with a `lastRole` accumulator
(initially `null`), pushing `{ role, parts: [{ text: m.text || "..." }] }`
only when the message's role differs from `lastRole`, and updating
`lastRole` to it when pushed. -/
def geminiHistoryAux (lastRole : Option String) : List Message → List GeminiContent
  | [] => []
  | m :: rest =>
    let role := roleString m.role
    if some role = lastRole then
      geminiHistoryAux lastRole rest
    else
      ⟨role, if m.text = "" then "..." else m.text⟩ :: geminiHistoryAux (some role) rest

/-- The `geminiHistory` array forwarded to `ai.chats.create` by
`sendMessageStream` (src/services/gemini.ts lines 84-96). -/
def geminiHistory (history : List Message) : List GeminiContent :=
  geminiHistoryAux none history

/-- A response chunk of `chat.sendMessageStream` as the generator reads it:
only its `text` field matters, with `""` standing for a missing (falsy)
text. -/
structure GenChunk where
  text : String
deriving Repr, DecidableEq

/-- The yield loop of `sendMessageStream` (src/services/gemini.ts lines
111-116): for each response chunk, `if (c.text) yield c.text`. The result
is the list of texts the generator yields, in order. -/
def sendMessageStream (chunks : List GenChunk) : List String :=
  chunks.filterMap (fun c => if c.text = "" then none else some c.text)

/-- The accumulation loop of `handleSendText` (src/App.tsx lines 334-346):
`modelText` starts empty and each yielded chunk is appended
(`modelText += chunk`); the final value is the text persisted via
`db.saveMessage`. -/
def handleSendTextModelText (yielded : List String) : String :=
  yielded.foldl (fun acc c => acc ++ c) ""

/-! ## The database layer (src/services/db.ts, `KrishanaSupabaseDB`)

A Supabase error value carries a `message` and a `code`; a missing message
is collapsed into `""` (the code reads `error.message || ""`). The
`sessions` and `messages` tables are lists of rows; a fallible backend call
is modelled by passing its outcome (`Option DbError`) explicitly, a failed
write leaving the table unchanged. -/

/-- A Supabase/PostgREST error object. -/
structure DbError where
  message : String
  code : String
deriving Repr, DecidableEq

/-- A row of the `sessions` table. -/
structure SessionRow where
  id : String
  name : String
  updated_at : ℕ
deriving Repr, DecidableEq

/-- A row of the `messages` table. -/
structure MessageRow where
  id : String
  session_id : String
  role : Role
  text : String
  timestamp : ℕ
deriving Repr, DecidableEq

/-- The database state: the two tables the claims touch. -/
structure Db where
  sessions : List SessionRow
  messages : List MessageRow
deriving Repr, DecidableEq

/-- `KrishanaSupabaseDB.isTableMissingError` (src/services/db.ts lines
6-15): false for a null error; otherwise the message (defaulted to `""`)
contains `"schema cache"` or `"does not exist"`, or the code is `'42P01'`
or `'PGRST116'`. -/
def isTableMissingError (error : Option DbError) : Bool :=
  match error with
  | none => false
  | some e =>
    let msg := e.message
    jsIncludes msg "schema cache" ||
    jsIncludes msg "does not exist" ||
    e.code == "42P01" ||
    e.code == "PGRST116"

/-- The comparator of the `.order('updated_at', { ascending: false })`
clause of `getAllSessions`: descending `updated_at`. -/
def updatedAtDesc (a b : SessionRow) : Bool :=
  b.updated_at ≤ a.updated_at

/-- `KrishanaSupabaseDB.getAllSessions` (src/services/db.ts lines 46-64).
`backend` is the outcome of the `sessions` select: on success the stored
rows, which the `.order('updated_at', { ascending: false })` clause hands
back sorted by `updated_at` descending (modelled by `mergeSort` with
`updatedAtDesc`); each row is mapped to a `ChatSession` with an empty
`messages` list. On error: throw `"TABLES_NOT_FOUND"` if the error is a
table-missing error, otherwise log and return `[]`. -/
def getAllSessions (backend : Except DbError (List SessionRow)) :
    Except String (List ChatSession) :=
  match backend with
  | .error e =>
    if isTableMissingError (some e) then .error "TABLES_NOT_FOUND"
    else .ok []
  | .ok data =>
    .ok ((data.mergeSort updatedAtDesc).map fun s =>
      { id := s.id, name := s.name, messages := [], updatedAt := s.updated_at })

/-- `KrishanaSupabaseDB.deleteSession` (src/services/db.ts lines 123-128):
delete the session's `messages` rows, throwing on error, then delete the
`sessions` row, throwing on error. `mErr` and `sErr` are the outcomes the
backend reports for the two deletes (a failed delete leaves its table
unchanged); the result is the final database state together with the error
the method throws, if any. -/
def deleteSession (st : Db) (id : String) (mErr sErr : Option DbError) :
    Db × Option DbError :=
  match mErr with
  | some e => (st, some e)
  | none =>
    let st1 : Db := { st with messages := st.messages.filter (fun m => !(m.session_id == id)) }
    match sErr with
    | some e => (st1, some e)
    | none => ({ st1 with sessions := st1.sessions.filter (fun s => !(s.id == id)) }, none)

/-- The `messages` upsert of `saveMessage`: replace the row with the same
primary key `id` if present, else insert. -/
def upsertMessageRow (rows : List MessageRow) (r : MessageRow) : List MessageRow :=
  if rows.any (fun m => m.id == r.id) then
    rows.map (fun m => if m.id == r.id then r else m)
  else
    rows ++ [r]

/-- `KrishanaSupabaseDB.saveMessage` (src/services/db.ts lines 109-121):
upsert the message row; if that errors (`upsertErr = some _`) the error is
only logged (`console.error`) and the table is unchanged. Then, in every
case, update the session's `updated_at` column to `Date.now()` (`now`).
The method never throws, so the result is always `Except.ok`. -/
def saveMessage (st : Db) (sessionId : String) (message : Message)
    (upsertErr : Option DbError) (now : ℕ) : Except DbError Db :=
  let row : MessageRow :=
    { id := message.id, session_id := sessionId, role := message.role
      text := message.text, timestamp := message.timestamp }
  let st1 : Db :=
    match upsertErr with
    | some _ => st
    | none => { st with messages := upsertMessageRow st.messages row }
  .ok { st1 with
        sessions := st1.sessions.map (fun s =>
          if s.id == sessionId then { s with updated_at := now } else s) }

/-! ## Property filtering (src/App.tsx, `filteredProperties`) -/

/-- The filter predicate of the `filteredProperties` memo (src/App.tsx
lines 126-136): the lowercased name, description or city contains the
lowercased search query, the type matches `typeFilter` unless that is
`'All Types'`, and the city matches `cityFilter` unless that is
`'All Cities'`. -/
def propertyMatches (searchQuery typeFilter cityFilter : String) (p : Property) : Bool :=
  let query := jsToLower searchQuery
  let matchesSearch :=
    jsIncludes (jsToLower p.name) query ||
    jsIncludes (jsToLower p.description) query ||
    jsIncludes (jsToLower p.city) query
  let matchesType := typeFilter == "All Types" || p.type == typeFilter
  let matchesCity := cityFilter == "All Cities" || p.city == cityFilter
  matchesSearch && matchesType && matchesCity

/-- `filteredProperties` (src/App.tsx lines 126-136). -/
def filteredProperties (properties : List Property)
    (searchQuery typeFilter cityFilter : String) : List Property :=
  properties.filter (propertyMatches searchQuery typeFilter cityFilter)

/-! ## Helper lemmas about the voice pipeline -/

theorem handleTranscription_fields (s : VoiceState) (m : ServerMessage) :
    (handleTranscription s m).scheduled = s.scheduled ∧
    (handleTranscription s m).nextStartTime = s.nextStartTime ∧
    (handleTranscription s m).activeSources = s.activeSources ∧
    (handleTranscription s m).audioContextOut = s.audioContextOut := by
  unfold handleTranscription
  rcases m.inputTranscription with _ | t
  · rcases m.outputTranscription with _ | t <;> simp
  · simp

theorem handleTurnComplete_fields (s : VoiceState) (m : ServerMessage) :
    (handleTurnComplete s m).scheduled = s.scheduled ∧
    (handleTurnComplete s m).nextStartTime = s.nextStartTime ∧
    (handleTurnComplete s m).activeSources = s.activeSources := by
  unfold handleTurnComplete
  split <;> simp

theorem handleAudio_activeSources_mono (s : VoiceState) (m : ServerMessage) (t : ℚ)
    (x : ℕ) (hx : x ∈ s.activeSources) : x ∈ (handleAudio s m t).activeSources := by
  unfold handleAudio
  rcases m.audioData with _ | d
  · exact hx
  · rcases h : s.audioContextOut with _ | c
    · exact hx
    · simp [hx]

/-- When a message carries no playable audio (no data, or the output
context ref is null), the audio branch is skipped entirely. -/
theorem handleAudio_skip (s : VoiceState) (m : ServerMessage) (t : ℚ)
    (h : m.audioData = none ∨ s.audioContextOut = none) :
    handleAudio s m t = s := by
  unfold handleAudio
  rcases h with h | h
  · rw [h]
  · rw [h]
    rcases m.audioData with _ | d <;> rfl

/-- The audio branch when a message carries audio of duration `d` and the
output context is present. -/
theorem handleAudio_play (s : VoiceState) (m : ServerMessage) (t : ℚ) (d : ℚ)
    (hd : m.audioData = some d) (hc : s.audioContextOut.isSome) :
    handleAudio s m t =
      { s with
        nextStartTime := max s.nextStartTime t + d
        activeSources := s.activeSources ++ [s.nextSourceId]
        scheduled := s.scheduled ++ [(max s.nextStartTime t, d)]
        nextSourceId := s.nextSourceId + 1 } := by
  rcases hc' : s.audioContextOut with _ | c
  · rw [hc'] at hc; simp at hc
  · unfold handleAudio
    rw [hd, hc']

/-! ## Claim theorems -/

/-- C1: for every voice-pipeline state, when `onmessage` handles a server
message whose `serverContent.interrupted` field is set, every source in the
active-source set is stopped, the active-source set is empty afterwards,
and `nextStartTimeRef` is reset to 0. -/
theorem C1_interruption_clears_playback (s : VoiceState) (m : ServerMessage) (t : ℚ)
    (h : m.interrupted = true) :
    (∀ src ∈ s.activeSources, src ∈ (onmessage s m t).2) ∧
    (onmessage s m t).1.activeSources = [] ∧
    (onmessage s m t).1.nextStartTime = 0 := by
  have hint : ∀ s2 : VoiceState, handleInterrupted s2 m =
      ({ s2 with activeSources := [], nextStartTime := 0 }, s2.activeSources) := by
    intro s2
    unfold handleInterrupted
    rw [h]
    simp
  simp only [onmessage, hint]
  refine ⟨?_, ?_, ?_⟩
  · intro src hsrc
    have h1 : src ∈ (handleTranscription s m).activeSources := by
      rw [(handleTranscription_fields s m).2.2.1]
      exact hsrc
    exact handleAudio_activeSources_mono _ m t src h1
  · simpa using (handleTurnComplete_fields _ m).2.2
  · simpa using (handleTurnComplete_fields _ m).2.1

/-- Witness for C1: a concrete interrupted message on a state with active
sources `[5, 6]`. -/
theorem C1_interruption_clears_playback_witness :
    (∀ src ∈ (⟨true, some 0, some 0, some 0, some 0, [5, 6], 3, [], 7, "", ""⟩ :
        VoiceState).activeSources,
      src ∈ (onmessage ⟨true, some 0, some 0, some 0, some 0, [5, 6], 3, [], 7, "", ""⟩
        ⟨none, none, none, true, false⟩ 0).2) ∧
    (onmessage ⟨true, some 0, some 0, some 0, some 0, [5, 6], 3, [], 7, "", ""⟩
      ⟨none, none, none, true, false⟩ 0).1.activeSources = [] ∧
    (onmessage ⟨true, some 0, some 0, some 0, some 0, [5, 6], 3, [], 7, "", ""⟩
      ⟨none, none, none, true, false⟩ 0).1.nextStartTime = 0 :=
  C1_interruption_clears_playback _ _ _ rfl

/-- The playback invariant only looks at the `scheduled` log and the
`nextStartTime` cursor. -/
theorem playbackInvariant_of_fields {a b : VoiceState}
    (hs : a.scheduled = b.scheduled) (hn : a.nextStartTime = b.nextStartTime) :
    playbackInvariant a ↔ playbackInvariant b := by
  unfold playbackInvariant
  rw [hs, hn]

/-- C2: playback is scheduled without overlap and in arrival order: a
message carrying an audio chunk of duration `d` starts it at
`max nextStartTime currentTime` and advances `nextStartTime` by exactly
`d`, and every `onmessage` step that does not carry an interruption
preserves the invariant that each logged chunk starts at or after the
scheduled end of the previously logged chunk (with `nextStartTime` at or
after the last logged end). -/
theorem C2_playback_no_overlap (s : VoiceState) (m : ServerMessage) (t : ℚ)
    (hinv : playbackInvariant s) (hni : m.interrupted = false) :
    playbackInvariant (onmessage s m t).1 ∧
    (∀ d, m.audioData = some d → s.audioContextOut.isSome →
      (onmessage s m t).1.scheduled = s.scheduled ++ [(max s.nextStartTime t, d)] ∧
      (onmessage s m t).1.nextStartTime = max s.nextStartTime t + d) := by
  have hint : ∀ s2 : VoiceState, handleInterrupted s2 m = (s2, []) := by
    intro s2
    unfold handleInterrupted
    rw [hni]
    simp
  simp only [onmessage, hint]
  have ht := handleTranscription_fields s m
  set s1 := handleTranscription s m with hs1
  have hinv1 : playbackInvariant s1 :=
    (playbackInvariant_of_fields ht.1 ht.2.1).mpr hinv
  rcases hd : m.audioData with _ | d
  · have hskip : handleAudio s1 m t = s1 := handleAudio_skip s1 m t (Or.inl hd)
    rw [hskip]
    refine ⟨?_, ?_⟩
    · exact (playbackInvariant_of_fields (handleTurnComplete_fields s1 m).1
        (handleTurnComplete_fields s1 m).2.1).mpr hinv1
    · intro d hd' _
      exact Option.noConfusion hd'
  · rcases hc : s.audioContextOut with _ | c
    · have hskip : handleAudio s1 m t = s1 :=
        handleAudio_skip s1 m t (Or.inr (ht.2.2.2.trans hc))
      rw [hskip]
      refine ⟨?_, ?_⟩
      · exact (playbackInvariant_of_fields (handleTurnComplete_fields s1 m).1
          (handleTurnComplete_fields s1 m).2.1).mpr hinv1
      · intro d' _ hcs
        simp at hcs
    · have hcs : s1.audioContextOut.isSome = true := by
        rw [ht.2.2.2, hc]
        rfl
      have hplay := handleAudio_play s1 m t d hd hcs
      rw [hplay]
      have hnew : playbackInvariant
          { s1 with
            nextStartTime := max s1.nextStartTime t + d
            activeSources := s1.activeSources ++ [s1.nextSourceId]
            scheduled := s1.scheduled ++ [(max s1.nextStartTime t, d)]
            nextSourceId := s1.nextSourceId + 1 } := by
        unfold playbackInvariant
        refine ⟨?_, ?_⟩
        · simp only []
          rw [List.chain'_append]
          refine ⟨hinv1.1, by simp, ?_⟩
          intro x hx y hy
          simp only [List.head?_cons, Option.mem_some_iff] at hy
          subst hy
          exact le_trans (hinv1.2 x hx) (le_max_left _ _)
        · simp only [List.getLast?_concat, Option.mem_some_iff]
          intro e he
          subst he
          exact le_refl _
      refine ⟨?_, ?_⟩
      · exact (playbackInvariant_of_fields (handleTurnComplete_fields _ m).1
          (handleTurnComplete_fields _ m).2.1).mpr hnew
      · intro d' hd' _
        injection hd' with hdd
        subst hdd
        refine ⟨?_, ?_⟩
        · rw [(handleTurnComplete_fields _ m).1]
          simp [ht.1, ht.2.1]
        · rw [(handleTurnComplete_fields _ m).2.1]
          simp [ht.2.1]

/-- Witness for C2: a concrete non-interrupted audio message on a state
satisfying the playback invariant. -/
theorem C2_playback_no_overlap_witness :
    (playbackInvariant
        (onmessage ⟨true, some 0, some 0, some 0, some 0, [], 0, [], 0, "", ""⟩
          ⟨none, none, some 1, false, false⟩ 0).1 ∧
      ∀ d, (⟨none, none, some 1, false, false⟩ : ServerMessage).audioData = some d →
        (⟨true, some 0, some 0, some 0, some 0, [], 0, [], 0, "", ""⟩ :
            VoiceState).audioContextOut.isSome →
        (onmessage ⟨true, some 0, some 0, some 0, some 0, [], 0, [], 0, "", ""⟩
            ⟨none, none, some 1, false, false⟩ 0).1.scheduled = [] ++ [(max 0 0, d)] ∧
        (onmessage ⟨true, some 0, some 0, some 0, some 0, [], 0, [], 0, "", ""⟩
            ⟨none, none, some 1, false, false⟩ 0).1.nextStartTime = max 0 0 + d) :=
  C2_playback_no_overlap _ _ _ (by unfold playbackInvariant; simp) rfl

/-- C3: `stopVoiceSession` resets the voice-pipeline state — `isVoiceActive`
is false, the media-stream ref, both audio-context refs and the
session-promise ref are null, the active-source set is empty — and it is
idempotent: running it again on the stopped state changes nothing. -/
theorem C3_stopVoiceSession_resets_and_idempotent (s : VoiceState) :
    (stopVoiceSession s).isVoiceActive = false ∧
    (stopVoiceSession s).mediaStream = none ∧
    (stopVoiceSession s).audioContextIn = none ∧
    (stopVoiceSession s).audioContextOut = none ∧
    (stopVoiceSession s).sessionPromise = none ∧
    (stopVoiceSession s).activeSources = [] ∧
    stopVoiceSession (stopVoiceSession s) = stopVoiceSession s := by
  unfold stopVoiceSession
  simp

/-- C8: after `stopVoiceSession` nulls the session-promise ref, the
per-frame microphone callback — which closes over the promise of the
session that installed it and sends only when that promise is still the
current one — sends nothing at all, for any captured session and any
frame. -/
theorem C8_no_send_after_stop (s : VoiceState) (captured : ℕ) (frame : List ℤ) :
    onaudioprocess (stopVoiceSession s) captured frame = [] := by
  unfold onaudioprocess stopVoiceSession
  simp

/-- C4: the model message text `handleSendText` persists via
`db.saveMessage` equals the concatenation, in order, of all chunks the
stream yields, and `sendMessageStream` yields exactly the chunks whose
text field is non-empty. -/
theorem C4_persisted_text_is_chunk_concat (chunks : List GenChunk) :
    handleSendTextModelText (sendMessageStream chunks) =
      String.join (sendMessageStream chunks) ∧
    sendMessageStream chunks =
      (chunks.map GenChunk.text).filter (fun txt => txt ≠ "") := by
  constructor
  · rfl
  · induction chunks with
    | nil => rfl
    | cons c cs ih =>
      simp only [sendMessageStream, List.filterMap_cons, List.map_cons,
        List.filter_cons] at ih ⊢
      by_cases hc : c.text = ""
      · simp [hc, ih]
      · simp [hc, ih]

/-- C7: `deleteSession` deletes the session's messages before the session
row and throws on the first failing delete: if the message delete errors,
it raises that error with the whole database (in particular the session
row) unchanged; a session row is only ever removed after the session's
messages are gone; and when the message delete succeeds, the raised error
is exactly the session delete's outcome. -/
theorem C7_deleteSession_messages_first (st : Db) (id : String)
    (mErr sErr : Option DbError) :
    (∀ e, mErr = some e → deleteSession st id mErr sErr = (st, some e)) ∧
    (∀ srow ∈ st.sessions, srow ∉ (deleteSession st id mErr sErr).1.sessions →
      ∀ m ∈ (deleteSession st id mErr sErr).1.messages, ¬ m.session_id = id) ∧
    (mErr = none → (deleteSession st id mErr sErr).2 = sErr) := by
  rcases mErr with _ | e
  · rcases sErr with _ | e2
    · refine ⟨?_, ?_, ?_⟩
      · intro e' he'
        exact Option.noConfusion he'
      · intro srow _ _ m hm
        have hm' : m ∈ List.filter (fun x => !(x.session_id == id)) st.messages := hm
        rw [List.mem_filter] at hm'
        intro hid
        rw [hid] at hm'
        simp at hm'
      · intro _
        rfl
    · refine ⟨?_, ?_, ?_⟩
      · intro e' he'
        exact Option.noConfusion he'
      · intro srow hsrow hnot m hm
        exact absurd hsrow hnot
      · intro _
        rfl
  · refine ⟨?_, ?_, ?_⟩
    · intro e' he'
      injection he' with h
      subst h
      rfl
    · intro srow hsrow hnot m hm
      exact absurd hsrow hnot
    · intro h
      exact Option.noConfusion h

/-- C10: `saveMessage` never raises — a failed message upsert is only
logged — and in every case it afterwards sets the `updated_at` column of
every session row with the given id to the current time; when the upsert
failed, the `messages` table is unchanged. -/
theorem C10_saveMessage_never_raises (st : Db) (sessionId : String)
    (message : Message) (upsertErr : Option DbError) (now : ℕ) :
    ∃ st', saveMessage st sessionId message upsertErr now = .ok st' ∧
      (∀ s ∈ st'.sessions, s.id = sessionId → s.updated_at = now) ∧
      (∀ e, upsertErr = some e → st'.messages = st.messages) := by
  refine ⟨_, rfl, ?_, ?_⟩
  · intro s hs hid
    simp only [List.mem_map] at hs
    obtain ⟨s0, _, rfl⟩ := hs
    by_cases h : s0.id = sessionId
    · simp [h]
    · simp only [beq_iff_eq, if_neg h] at hid ⊢
      exact absurd hid h
  · intro e he
    subst he
    rfl

/-- `s.includes("")` is true for every string `s`. -/
theorem jsIncludes_empty (s : String) : jsIncludes s "" = true := by
  unfold jsIncludes
  rw [List.any_eq_true]
  refine ⟨s.toList, (List.mem_tails _ _).mpr (List.suffix_refl _), ?_⟩
  simp [List.isPrefixOf]

/-- C5: `filteredProperties` contains exactly the properties whose
lowercased name, description or city contains the lowercased search query,
whose type equals the type filter unless it is `'All Types'`, and whose
city equals the city filter unless it is `'All Cities'`; with an empty
query and both filters at their `'All'` defaults it is the full property
list in its original order. -/
theorem C5_filteredProperties_characterization
    (properties : List Property) (searchQuery typeFilter cityFilter : String) :
    (∀ p, p ∈ filteredProperties properties searchQuery typeFilter cityFilter ↔
      p ∈ properties ∧
      (jsIncludes (jsToLower p.name) (jsToLower searchQuery) = true ∨
       jsIncludes (jsToLower p.description) (jsToLower searchQuery) = true ∨
       jsIncludes (jsToLower p.city) (jsToLower searchQuery) = true) ∧
      (typeFilter = "All Types" ∨ p.type = typeFilter) ∧
      (cityFilter = "All Cities" ∨ p.city = cityFilter)) ∧
    filteredProperties properties "" "All Types" "All Cities" = properties := by
  constructor
  · intro p
    unfold filteredProperties propertyMatches
    rw [List.mem_filter]
    simp only [Bool.and_eq_true, Bool.or_eq_true, beq_iff_eq]
    tauto
  · unfold filteredProperties
    rw [List.filter_eq_self]
    intro p _
    unfold propertyMatches
    have h1 : jsToLower "" = "" := rfl
    rw [h1]
    simp [jsIncludes_empty]

theorem updatedAtDesc_trans (a b c : SessionRow) (h1 : updatedAtDesc a b = true)
    (h2 : updatedAtDesc b c = true) : updatedAtDesc a c = true := by
  unfold updatedAtDesc at *
  simp only [decide_eq_true_eq] at *
  omega

theorem updatedAtDesc_total (a b : SessionRow) :
    (updatedAtDesc a b || updatedAtDesc b a) = true := by
  unfold updatedAtDesc
  simp only [Bool.or_eq_true, decide_eq_true_eq]
  omega

/-- C6: `getAllSessions` returns the stored sessions ordered by
`updated_at` descending, each with an empty `messages` list; on a backend
error it throws `"TABLES_NOT_FOUND"` exactly when the error is a
table-missing error (message contains `"schema cache"` or
`"does not exist"`, or the code is `'42P01'` or `'PGRST116'`) and returns
the empty list otherwise. -/
theorem C6_getAllSessions_order_and_errors
    (stored : List SessionRow) (e : DbError) :
    (∃ l, getAllSessions (.ok stored) = .ok l ∧
      List.Pairwise (fun a b => b.updatedAt ≤ a.updatedAt) l ∧
      l.Perm (stored.map fun s =>
        { id := s.id, name := s.name, messages := [], updatedAt := s.updated_at }) ∧
      ∀ s ∈ l, s.messages = []) ∧
    (isTableMissingError (some e) = true →
      getAllSessions (.error e) = .error "TABLES_NOT_FOUND") ∧
    (isTableMissingError (some e) = false →
      getAllSessions (.error e) = .ok []) ∧
    (isTableMissingError (some e) = true ↔
      (jsIncludes e.message "schema cache" = true ∨
       jsIncludes e.message "does not exist" = true ∨
       e.code = "42P01" ∨ e.code = "PGRST116")) := by
  refine ⟨⟨_, rfl, ?_, ?_, ?_⟩, ?_, ?_, ?_⟩
  · have hs := List.sorted_mergeSort updatedAtDesc_trans updatedAtDesc_total stored
    refine List.Pairwise.map _ ?_ hs
    intro a b hab
    unfold updatedAtDesc at hab
    simp only [decide_eq_true_eq] at hab
    exact hab
  · exact List.Perm.map _ (List.mergeSort_perm stored updatedAtDesc)
  · intro s hs
    rw [List.mem_map] at hs
    obtain ⟨s0, _, rfl⟩ := hs
    rfl
  · intro h
    simp [getAllSessions, h]
  · intro h
    simp [getAllSessions, h]
  · unfold isTableMissingError
    simp only [Bool.or_eq_true, beq_iff_eq]
    tauto

/-- The first message of each maximal run of consecutive same-role
messages in a history: keep the head of the run, skip the rest of the run,
recurse on what follows. This is the claim's description of the compaction,
to be compared with `geminiHistory`. -/
def runHeads : List Message → List Message
  | [] => []
  | m :: rest => m :: runHeads (rest.dropWhile (fun x => x.role == m.role))
termination_by l => l.length
decreasing_by
  have h1 : (rest.dropWhile (fun x : Message => x.role == m.role)).length ≤ rest.length :=
    (List.dropWhile_suffix (fun x : Message => x.role == m.role)).length_le
  simp only [List.length_cons]
  omega

/-- How `sendMessageStream` renders one kept history message: the mapped
role string and the text with `""` replaced by `"..."` (`m.text || "..."`). -/
def renderContent (m : Message) : GeminiContent :=
  { role := roleString m.role, text := if m.text = "" then "..." else m.text }

theorem roleString_beq (r1 r2 : Role) :
    (roleString r1 == roleString r2) = (r1 == r2) := by
  cases r1 <;> cases r2 <;> decide

/-- A `some` last-role accumulator skips exactly the rest of the current
run: compacting with `lastRole = some r` equals compacting the history with
the leading messages of role `r` dropped. -/
theorem geminiHistoryAux_some (r : String) (rest : List Message) :
    geminiHistoryAux (some r) rest =
      geminiHistoryAux none (rest.dropWhile (fun x => roleString x.role == r)) := by
  induction rest with
  | nil => rfl
  | cons x xs ih =>
    by_cases hx : roleString x.role = r
    · have h1 : geminiHistoryAux (some r) (x :: xs) = geminiHistoryAux (some r) xs := by
        simp only [geminiHistoryAux]
        rw [if_pos (show some (roleString x.role) = some r by rw [hx])]
      have h2 : (x :: xs).dropWhile (fun y => roleString y.role == r) =
          xs.dropWhile (fun y => roleString y.role == r) := by
        rw [List.dropWhile_cons_of_pos (by simp [hx])]
      rw [h1, h2]
      exact ih
    · have h2 : (x :: xs).dropWhile (fun y => roleString y.role == r) = x :: xs := by
        rw [List.dropWhile_cons_of_neg (by simp [hx])]
      rw [h2]
      simp only [geminiHistoryAux]
      rw [if_neg (show ¬ some (roleString x.role) = some r from
            fun hc => hx (Option.some_injective _ hc)),
        if_neg (show ¬ some (roleString x.role) = none by simp)]

theorem geminiHistoryAux_none_eq_runHeads :
    ∀ n (h : List Message), h.length ≤ n →
      geminiHistoryAux none h = (runHeads h).map renderContent := by
  intro n
  induction n with
  | zero =>
    intro h hh
    rw [Nat.le_zero, List.length_eq_zero] at hh
    subst hh
    rw [runHeads]
    rfl
  | succ n ih =>
    intro h hh
    cases h with
    | nil =>
      rw [runHeads]
      rfl
    | cons m rest =>
      rw [runHeads]
      simp only [geminiHistoryAux, List.map_cons]
      rw [if_neg (show ¬ some (roleString m.role) = none by simp)]
      have hdrop : rest.dropWhile (fun x => roleString x.role == roleString m.role) =
          rest.dropWhile (fun x => x.role == m.role) := by
        congr 1
        funext x
        exact roleString_beq x.role m.role
      rw [geminiHistoryAux_some, hdrop]
      have hlen : (rest.dropWhile (fun x => x.role == m.role)).length ≤ n := by
        have h1 : (rest.dropWhile (fun x : Message => x.role == m.role)).length ≤ rest.length :=
          (List.dropWhile_suffix (fun x : Message => x.role == m.role)).length_le
        simp only [List.length_cons] at hh
        omega
      rw [ih _ hlen]
      rfl

/-- The compacted history strictly alternates: no two consecutive entries
share a role, and the head's role differs from the accumulator. -/
theorem geminiHistoryAux_chain (h : List Message) :
    ∀ last : Option String,
      List.Chain' (fun a b => a.role ≠ b.role) (geminiHistoryAux last h) ∧
      ∀ c ∈ (geminiHistoryAux last h).head?, some c.role ≠ last := by
  induction h with
  | nil =>
    intro last
    exact ⟨List.chain'_nil, by simp [geminiHistoryAux]⟩
  | cons m rest ih =>
    intro last
    simp only [geminiHistoryAux]
    by_cases hr : some (roleString m.role) = last
    · rw [if_pos hr]
      exact ih last
    · rw [if_neg hr]
      have h2 := ih (some (roleString m.role))
      refine ⟨?_, ?_⟩
      · rw [List.chain'_cons']
        refine ⟨?_, h2.1⟩
        intro y hy
        have hne := h2.2 y hy
        intro hcon
        exact hne (by rw [← hcon])
      · intro c hc
        simp only [List.head?_cons, Option.mem_some_iff] at hc
        subst hc
        exact hr

/-- Every role string in the compacted history is `"user"` or `"model"`. -/
theorem geminiHistoryAux_roles (h : List Message) :
    ∀ last, ∀ c ∈ geminiHistoryAux last h, c.role = "user" ∨ c.role = "model" := by
  induction h with
  | nil =>
    intro last c hc
    simp [geminiHistoryAux] at hc
  | cons m rest ih =>
    intro last c hc
    simp only [geminiHistoryAux] at hc
    by_cases hr : some (roleString m.role) = last
    · rw [if_pos hr] at hc
      exact ih last c hc
    · rw [if_neg hr] at hc
      rcases List.mem_cons.mp hc with rfl | hc2
      · rcases hm : m.role <;> simp [roleString, hm]
      · exact ih _ c hc2

/-- C9: the history `sendMessageStream` forwards keeps only the first
message of each maximal run of consecutive same-role messages, replacing
an empty text by `"..."`; in particular the forwarded history strictly
alternates between the `"user"` and `"model"` roles. -/
theorem C9_history_compaction (history : List Message) :
    geminiHistory history = (runHeads history).map renderContent ∧
    List.Chain' (fun a b => a.role ≠ b.role) (geminiHistory history) ∧
    ∀ c ∈ geminiHistory history, c.role = "user" ∨ c.role = "model" := by
  refine ⟨?_, ?_, ?_⟩
  · exact geminiHistoryAux_none_eq_runHeads history.length history le_rfl
  · exact (geminiHistoryAux_chain history none).1
  · exact geminiHistoryAux_roles history none

end RealEstate
